import Mathlib

/-!
Verification of the incremental build-graph core of the ng-packagr integration
repository: the caching compiler host (cacheCompilerHost), the source
versioning pass (augmentProgramWithVersioning), the tsconfig initialization
transform (initTsConfigTransformFactory), the content-addressed transform
cache, and the downleveling plugin (downlevelCodeWithTsc).

JavaScript strings are embedded as lists of characters (JStr), so that the
string operations the source relies on (String.prototype.replace with a string
pattern, endsWith, path helpers) can be given faithful executable definitions.
-/

/-- A JavaScript string, embedded as a list of characters. -/
abbrev JStr := List Char

/-- Character-level test used by endsWithS. -/
def endsWithS (s suf : JStr) : Bool := suf.isSuffixOf s

/-- Model of ensureUnixPath from utils/path: replaces every backslash by a
forward slash. -/
def ensureUnixPath (p : JStr) : JStr :=
  p.map (fun c => if c = '\\' then '/' else c)

/-- Model of the node file-url scheme (fileUrl from ng-package/nodes): the
node URI of a file is its unix path behind a file scheme marker. -/
def fileUrl (p : JStr) : JStr := ("file://".data) ++ p

/-- JavaScript String.prototype.toLowerCase, restricted to the character-wise
lowering relevant for ASCII file names. -/
def toLowerJS (s : JStr) : JStr := s.map Char.toLower

/-- Model of path.basename: the characters after the last path separator
(forward or backward slash). -/
def jsBasename (p : JStr) : JStr :=
  p.foldl (fun acc c => if c = '/' ∨ c = '\\' then [] else acc ++ [c]) []

/-- Model of path.dirname, simplified to: the characters before the last
forward slash, a dot when there is no slash, and a slash for root children. -/
def jsDirnameAux : JStr → Option JStr
  | [] => none
  | c :: cs =>
    match jsDirnameAux cs with
    | some r => some (c :: r)
    | none => if c = '/' then some [] else none

/-- Model of path.dirname built on jsDirnameAux. -/
def jsDirname (p : JStr) : JStr :=
  match jsDirnameAux p with
  | none => ".".data
  | some [] => "/".data
  | some r => r

/-- Model of path.resolve restricted to the shapes the host uses: an absolute
resource name stands alone, a relative one is joined to the directory.
(Path normalization of dot segments is not modelled; no claim depends on it.) -/
def pathResolve (dir name : JStr) : JStr :=
  match name with
  | [] => dir
  | c :: _ => if c = '/' then name else dir ++ '/' :: name

/-- JavaScript String.prototype.replace with a string pattern: replaces only
the first occurrence of the pattern, scanning left to right. -/
def replFirst (pat r : JStr) : JStr → JStr
  | [] => if pat.isPrefixOf ([] : JStr) then r else []
  | c :: cs =>
    if pat.isPrefixOf (c :: cs) then r ++ (c :: cs).drop pat.length
    else c :: replFirst pat r cs

/-- JavaScript truthiness of an optional string value (undefined, false and
the empty string are falsy). -/
def jsTruthyStr : Option JStr → Bool
  | none => false
  | some s => !s.isEmpty

/-- The regex rewrite fileName.replace of js or js.map suffixes to their
mjs counterparts performed by writeFile for non-declaration outputs. -/
def rewriteJsToMjs (s : JStr) : JStr :=
  if endsWithS s (".js.map".data) then s.take (s.length - 7) ++ (".mjs.map".data)
  else if endsWithS s (".js".data) then s.take (s.length - 3) ++ (".mjs".data)
  else s

/-! ## Source versioning pass (augmentProgramWithVersioning) -/

/-- A ts.SourceFile as seen by the versioning pass: its text and an optional
version stamp. -/
structure VFile where
  text : JStr
  version : Option JStr
deriving DecidableEq

/-- The loop body of augmentProgramWithVersioning: a file with no version is
stamped with the content hash of its text; a stamped file is left alone. -/
def augmentVersion (hash : JStr → JStr) (file : VFile) : VFile :=
  if file.version = none then { file with version := some (hash file.text) } else file

/-- augmentProgramWithVersioning, applied to the list of source files the
wrapped getSourceFiles returns: each file is stamped when unversioned. -/
def augmentProgramWithVersioning (hash : JStr → JStr) (files : List VFile) : List VFile :=
  files.map (augmentVersion hash)

/-! ## Content-addressed transform cache (utils/cache) -/

/-- Modelled from the spec: the on-disk cache store behind readCacheEntry and
saveCacheEntry (the utils/cache implementation is not part of the sampled
sources); a mapping from directory and key to an optional stored payload. -/
structure CacheStore where
  entries : JStr → JStr → Option JStr

/-- Modelled from the spec: generateKey is a deterministic digest of the input
content, represented as the application of a fixed digest function. -/
def generateKey (hash : JStr → JStr) (content : JStr) : JStr := hash content

/-- Modelled from the spec: saveCacheEntry persists the payload under the key
in the given cache directory. -/
def saveCacheEntry (store : CacheStore) (dir key payload : JStr) : CacheStore :=
  ⟨fun d k => if d = dir ∧ k = key then some payload else store.entries d k⟩

/-- Modelled from the spec: readCacheEntry returns the payload previously
stored under the key in the given cache directory, or none on a miss. -/
def readCacheEntry (store : CacheStore) (dir key : JStr) : Option JStr :=
  store.entries dir key

/-! ## Downlevel plugin (flatten/downlevel-plugin.ts) -/

/-- The rollup TransformResult produced by downlevelCodeWithTsc: output code
and its (parsed) source map. -/
structure TransformResult where
  code : JStr
  map : JStr
deriving DecidableEq

/-- External collaborators of downlevelCodeWithTsc: the digest behind
generateKey, ts.transpileModule (given the code and the mapRoot directory),
JSON parsing of a source-map text, JSON serialization of a code and map pair,
and the decoding of a stored cache payload back into a result pair. -/
structure DownlevelEnv where
  hash : JStr → JStr
  transpile : JStr → JStr → JStr × JStr
  jsonParse : JStr → JStr
  jsonStringifyEntry : JStr → JStr → JStr
  parseEntry : JStr → TransformResult

/-- downlevelCodeWithTsc: generate the content key; when the cache directory
is truthy, try the cache and return a hit; otherwise transpile with tsc
(mapRoot set to the dirname of the file path), save to the cache only when the
cache directory is truthy, and return the fresh code with the parsed map.
The last two components count the cache read and cache write operations. -/
def downlevelCodeWithTsc (env : DownlevelEnv) (store : CacheStore)
    (code filePath : JStr) (cacheDirectory : Option JStr) :
    TransformResult × CacheStore × Nat × Nat :=
  let key := generateKey env.hash code
  let cached :=
    if jsTruthyStr cacheDirectory then
      readCacheEntry store (cacheDirectory.getD []) key
    else none
  match cached with
  | some payload => (env.parseEntry payload, store, 1, 0)
  | none =>
    let t := env.transpile code (jsDirname filePath)
    let reads := if jsTruthyStr cacheDirectory then 1 else 0
    let store2 :=
      if jsTruthyStr cacheDirectory then
        saveCacheEntry store (cacheDirectory.getD []) key (env.jsonStringifyEntry t.1 t.2)
      else store
    ({ code := t.1, map := env.jsonParse t.2 }, store2, reads,
      if jsTruthyStr cacheDirectory then 1 else 0)

/-! ## Caching compiler host (cacheCompilerHost) -/

/-- One sourcesFileCache entry (FileCache): existence flag, parsed source-file
handle, raw content, and the recorded declaration output path. A field holding
none means the field is not yet populated this generation. -/
structure CacheEntry where
  exist : Option Bool := none
  sourceFile : Option JStr := none
  content : Option JStr := none
  declarationFileName : Option JStr := none
deriving DecidableEq

/-- One outputCache entry: raw emitted content, its content hash (version),
and the optionally extracted source map. -/
structure OutputEntry where
  content : JStr
  version : JStr
  map : Option JStr
deriving DecidableEq

/-- External collaborators of the caching host: the underlying incremental
compiler host operations (fileExists, getSourceFile at a language version,
readFile), the sha256 content digest, the inline source-map extraction
(convertSourceMap.fromComment(data).toJSON()), the stylesheet processor, and
ts.resolveModuleName. -/
structure HostEnv where
  uFileExists : JStr → Bool
  uGetSourceFile : JStr → Nat → Option JStr
  uReadFile : JStr → Option JStr
  hash : JStr → JStr
  extractMap : JStr → JStr
  processStylesheet : JStr → Option JStr → JStr
  resolveModule : JStr → JStr → Option JStr

/-- The per-entry-point data the host closure captures: flatModuleFile,
destinationPath and entryFile from the entry point, and the entry point's own
node URI (used as the source of dependency edges). -/
structure HostConfig where
  flatModuleFile : JStr
  destinationPath : JStr
  entryFile : JStr
  epUri : JStr

/-- The flattened declaration file name: flatModuleFile with a d.ts suffix. -/
def flatModuleFileDtsFilename (cfg : HostConfig) : JStr :=
  cfg.flatModuleFile ++ (".d.ts".data)

/-- The flattened declaration path: the destination path joined with the
flattened declaration file name, in unix form. -/
def flatModuleFileDtsPath (cfg : HostConfig) : JStr :=
  ensureUnixPath (cfg.destinationPath ++ '/' :: flatModuleFileDtsFilename cfg)

/-- Whether the entry file is literally named as the canonical index:
basename of the lowercased entry file equals index.ts. -/
def hasIndexEntryFile (cfg : HostConfig) : Bool :=
  decide (jsBasename (toLowerJS cfg.entryFile) = ("index.ts".data))

/-- The mutable state the host threads: the sourcesFileCache, the entry
point's outputCache, the build graph (node URIs plus dependency edges),
invocation counters for the underlying host operations and for source-map
extraction, and the list of outputs forwarded to the underlying writeFile. -/
structure HostState where
  sfc : JStr → CacheEntry
  outputCache : JStr → Option OutputEntry
  nodes : List JStr
  edges : List (JStr × JStr)
  existsCalls : Nat
  parseCalls : Nat
  readCalls : Nat
  extractCalls : Nat
  emitted : List (JStr × JStr)

/-- Pointwise update of the sourcesFileCache at one path. -/
def updateEntry (sfc : JStr → CacheEntry) (p : JStr) (e : CacheEntry) : JStr → CacheEntry :=
  fun q => if q = p then e else sfc q

/-- Pointwise update of the outputCache at one path. -/
def updateOutput (oc : JStr → Option OutputEntry) (p : JStr) (e : OutputEntry) :
    JStr → Option OutputEntry :=
  fun q => if q = p then some e else oc q

/-- getNode: create-or-fetch the graph node for a file name by its file URI
(the graph put happens only when the node is absent). -/
def getNodeS (s : HostState) (fileName : JStr) : JStr × HostState :=
  let uri := fileUrl (ensureUnixPath fileName)
  (uri, if uri ∈ s.nodes then s else { s with nodes := s.nodes ++ [uri] })

/-- Node.dependsOn: record a directed dependency edge, idempotently. -/
def dependsOn (s : HostState) (src dst : JStr) : HostState :=
  if (src, dst) ∈ s.edges then s else { s with edges := s.edges ++ [(src, dst)] }

/-- addDependee: create-or-fetch the node for the file and record that the
owning entry point depends on it. -/
def addDependee (cfg : HostConfig) (s : HostState) (fileName : JStr) : HostState :=
  let r := getNodeS s fileName
  dependsOn r.2 cfg.epUri r.1

/-- The wrapped fileExists: consult the cached existence flag, and only when
it is unpopulated invoke the underlying host and store the answer. -/
def hostFileExists (env : HostEnv) (s : HostState) (fileName : JStr) : Bool × HostState :=
  match (s.sfc fileName).exist with
  | some b => (b, s)
  | none =>
    let b := env.uFileExists fileName
    (b, { s with
            sfc := updateEntry s.sfc fileName { s.sfc fileName with exist := some b },
            existsCalls := s.existsCalls + 1 })

/-- The wrapped getSourceFile: register the dependency edge, then consult the
cached parse and only re-parse through the underlying host when unpopulated. -/
def hostGetSourceFile (env : HostEnv) (cfg : HostConfig) (s : HostState)
    (fileName : JStr) (languageVersion : Nat) : Option JStr × HostState :=
  let s1 := addDependee cfg s fileName
  match (s1.sfc fileName).sourceFile with
  | some sf => (some sf, s1)
  | none =>
    let sf := env.uGetSourceFile fileName languageVersion
    (sf, { s1 with
             sfc := updateEntry s1.sfc fileName { s1.sfc fileName with sourceFile := sf },
             parseCalls := s1.parseCalls + 1 })

/-- The wrapped readFile: register the dependency edge, then consult the
cached content and only re-read through the underlying host when
unpopulated. -/
def hostReadFile (env : HostEnv) (cfg : HostConfig) (s : HostState)
    (fileName : JStr) : Option JStr × HostState :=
  let s1 := addDependee cfg s fileName
  match (s1.sfc fileName).content with
  | some c => (some c, s1)
  | none =>
    let c := env.uReadFile fileName
    (c, { s1 with
            sfc := updateEntry s1.sfc fileName { s1.sfc fileName with content := c },
            readCalls := s1.readCalls + 1 })

/-- The declaration-path recording step of writeFile: for one covered source
file, record the declaration output path only when none is recorded yet. -/
def recordDecl (fn : JStr) (st : HostState) (src : JStr) : HostState :=
  if (st.sfc src).declarationFileName = none then
    { st with sfc := (updateEntry st.sfc src
        { st.sfc src with declarationFileName := some (ensureUnixPath fn) }) }
  else st

/-- The wrapped writeFile. Declaration outputs: the flattened declaration is
suppressed entirely when the entry file is named index, renamed by replacing
the first occurrence of the flattened declaration file name with index.d.ts
otherwise; each covered source file records its declaration path once; the
output is forwarded to the underlying writeFile. Non-declaration outputs: the
js suffix is rewritten to mjs, the content is hashed, the source map of an
mjs output is re-extracted only when the hash differs from the cached version
(or no entry is cached), and the output entry is stored and forwarded. -/
def hostWriteFile (env : HostEnv) (cfg : HostConfig) (s : HostState)
    (fileName data : JStr) (sourceFiles : List JStr) : HostState :=
  if endsWithS fileName (".d.ts".data) then
    if fileName = flatModuleFileDtsPath cfg then
      if hasIndexEntryFile cfg then s
      else
        let fn := replFirst (flatModuleFileDtsFilename cfg) ("index.d.ts".data) fileName
        let s1 := sourceFiles.foldl (recordDecl fn) s
        { s1 with emitted := s1.emitted ++ [(fn, data)] }
    else
      let s1 := sourceFiles.foldl (recordDecl fileName) s
      { s1 with emitted := s1.emitted ++ [(fileName, data)] }
  else
    let fn := rewriteJsToMjs fileName
    let version := env.hash data
    if endsWithS fn (".mjs".data) then
      match s.outputCache fn with
      | some cd =>
        if cd.version = version then
          { s with
              outputCache := updateOutput s.outputCache fn
                { content := data, version := version, map := cd.map },
              emitted := s.emitted ++ [(fn, data)] }
        else
          { s with
              outputCache := updateOutput s.outputCache fn
                { content := data, version := version, map := some (env.extractMap data) },
              extractCalls := s.extractCalls + 1,
              emitted := s.emitted ++ [(fn, data)] }
      | none =>
        { s with
            outputCache := updateOutput s.outputCache fn
              { content := data, version := version, map := some (env.extractMap data) },
            extractCalls := s.extractCalls + 1,
            emitted := s.emitted ++ [(fn, data)] }
    else
      { s with
          outputCache := updateOutput s.outputCache fn
            { content := data, version := version, map := none },
          emitted := s.emitted ++ [(fn, data)] }

/-- The wrapped resolveModuleNames: delegate each module name to the
compiler's own resolver against the unix form of the containing file; the
host state (and in particular the graph) is left untouched. -/
def hostResolveModuleNames (env : HostEnv) (s : HostState)
    (moduleNames : List JStr) (containingFile : JStr) :
    List (Option JStr) × HostState :=
  (moduleNames.map (fun m => env.resolveModule m (ensureUnixPath containingFile)), s)

/-- resourceNameToFileName: resolve the resource relative to the containing
file, create-or-fetch both nodes and record that the containing file depends
on the resource, returning the resolved path. -/
def hostResourceNameToFileName (s : HostState)
    (resourceName containingFilePath : JStr) : JStr × HostState :=
  let resourcePath := pathResolve (jsDirname containingFilePath) resourceName
  let r1 := getNodeS s containingFilePath
  let r2 := getNodeS r1.2 resourcePath
  (resourcePath, dependsOn r2.2 r1.1 r2.1)

/-- The suffix of a list starting at the last occurrence of a character,
inclusive; none when the character does not occur. -/
def lastFrom (c : Char) : JStr → Option JStr
  | [] => none
  | x :: xs =>
    match lastFrom c xs with
    | some r => some r
    | none => if x = c then some (x :: xs) else none

/-- Model of path.extname: the part of the basename from its last dot on,
where a dot in leading position does not count (dotfiles have no extension). -/
def jsExtname (p : JStr) : JStr :=
  match jsBasename p with
  | [] => []
  | _ :: brest =>
    match lastFrom '.' brest with
    | some r => r
    | none => []

/-- Whether a resource path has a template-like extension (the html, htm or
svg regex over path.extname); everything else is processed as a stylesheet. -/
def isTemplateLike (fileName : JStr) : Bool :=
  let e := jsExtname fileName
  endsWithS e ("html".data) || endsWithS e ("htm".data) || endsWithS e ("svg".data)

/-- The wrapped readResource: register the dependency edge; on a populated
content cache return it; otherwise check existence through the underlying
host and fail with a message naming the path when the file is missing; else
read the template directly or route a stylesheet through the processor, cache
the content together with a positive existence flag, and return it. -/
def hostReadResource (env : HostEnv) (cfg : HostConfig) (s : HostState)
    (fileName : JStr) : Except JStr (Option JStr) × HostState :=
  let s1 := addDependee cfg s fileName
  match (s1.sfc fileName).content with
  | some c => (Except.ok (some c), s1)
  | none =>
    let s2 := { s1 with existsCalls := s1.existsCalls + 1 }
    if env.uFileExists fileName then
      if isTemplateLike fileName then
        let c := env.uReadFile fileName
        (Except.ok c,
          { s2 with
              sfc := updateEntry s2.sfc fileName
                { s2.sfc fileName with content := c, exist := some true },
              readCalls := s2.readCalls + 1 })
      else
        let c := env.processStylesheet fileName (env.uReadFile fileName)
        (Except.ok (some c),
          { s2 with
              sfc := updateEntry s2.sfc fileName
                { s2.sfc fileName with content := some c, exist := some true },
              readCalls := s2.readCalls + 1 })
    else
      (Except.error (("Cannot read file ".data) ++ fileName ++ (".".data)), s2)

/-! ## Build graph nodes and the tsconfig initialization transform -/

/-- The entry point lifecycle states. -/
inductive EPState where
  | pending
  | inProgress
  | done
deriving DecidableEq

/-- The kind of a graph node payload. -/
inductive GNodeKind where
  | entryPointKind
  | fileKind
deriving DecidableEq

/-- A build-graph node as the tsconfig initialization transform sees it: its
URI, payload kind and state, and the entry-point data fields the transform
reads (the resolved entry point and the output directory) and writes (the
tsConfig). -/
structure GNode where
  url : JStr
  kind : GNodeKind
  state : EPState
  entryPointData : JStr
  outDir : JStr
  tsConfig : Option JStr
deriving DecidableEq

/-- Modelled from the spec: isEntryPointInProgress (from ng-package/nodes,
not in the sampled sources) holds of an entry-point node whose state is
in-progress. -/
def isEntryPointInProgress (n : GNode) : Bool :=
  decide (n.kind = GNodeKind.entryPointKind ∧ n.state = EPState.inProgress)

/-- Modelled from the spec: BuildGraph.find returns the first node matching
the predicate; the graph is embedded as the ordered list of its nodes. -/
def buildGraphFind (p : GNode → Bool) (g : List GNode) : Option GNode :=
  g.find? p

/-- The in-place update the transform performs, functionally: the first
in-progress entry point has its tsConfig data field assigned, every other
node is untouched. -/
def setTsConfigOnFirst (initializeTsConfig : JStr → JStr → JStr → JStr)
    (defaultTsConfig : JStr) : List GNode → List GNode
  | [] => []
  | n :: rest =>
    if isEntryPointInProgress n then
      { n with tsConfig := some (initializeTsConfig defaultTsConfig n.entryPointData n.outDir) } :: rest
    else n :: setTsConfigOnFirst initializeTsConfig defaultTsConfig rest

/-- The transform of initTsConfigTransformFactory: peek the in-progress entry
point via the graph find predicate, assign its tsConfig from
initializeTsConfig, and return the same graph; none models the crash when no
entry point is in progress. -/
def initTsConfigTransform (initializeTsConfig : JStr → JStr → JStr → JStr)
    (defaultTsConfig : JStr) (g : List GNode) : Option (List GNode) :=
  match buildGraphFind isEntryPointInProgress g with
  | none => none
  | some _ => some (setTsConfigOnFirst initializeTsConfig defaultTsConfig g)

/-! ## Concrete instances used by witnesses and counterexamples -/

/-- A concrete host environment with trivial collaborators. -/
def envW : HostEnv :=
  ⟨fun _ => true, fun p _ => some p, fun p => some p, fun d => d, fun d => d,
   fun p c => p ++ c.getD [], fun m _ => some m⟩

/-- A concrete host configuration with an entry file not named index. -/
def cfgW : HostConfig :=
  ⟨"lib".data, "/dist".data, "/src/public_api.ts".data, "ep".data⟩

/-- A concrete host configuration whose destination directory happens to
contain the flattened declaration file name as a path component. -/
def cfgC : HostConfig :=
  ⟨"a".data, "/x/a.d.ts".data, "/x/public_api.ts".data, "ep".data⟩

/-- A concrete host configuration whose entry file is named index.ts. -/
def cfgI : HostConfig :=
  ⟨"lib".data, "/dist".data, "/src/index.ts".data, "ep".data⟩

/-- The empty host state. -/
def stEmpty : HostState :=
  ⟨fun _ => {}, fun _ => none, [], [], 0, 0, 0, 0, []⟩

/-- A concrete host environment whose underlying fileExists is constantly
false (every file is missing). -/
def envM : HostEnv :=
  ⟨fun _ => false, fun p _ => some p, fun p => some p, fun d => d, fun d => d,
   fun p c => p ++ c.getD [], fun m _ => some m⟩

/-- A concrete host state with one fully populated cache entry. -/
def stW : HostState :=
  ⟨fun q => if q = ("/src/a.ts".data) then
      ⟨some true, some ("sf".data), some ("ct".data), none⟩ else {},
   fun _ => none, [], [], 0, 0, 0, 0, []⟩

/-- A concrete host state with a recorded declaration path for one source. -/
def stD : HostState :=
  ⟨fun q => if q = ("/src/a.ts".data) then
      ⟨none, none, none, some ("/dist/a.d.ts".data)⟩ else {},
   fun _ => none, [], [], 0, 0, 0, 0, []⟩

/-- A concrete file node of the build graph. -/
def gFile : GNode :=
  ⟨"file:///src/a.ts".data, GNodeKind.fileKind, EPState.pending, [], [], none⟩

/-- A concrete in-progress entry-point node of the build graph. -/
def gEp : GNode :=
  ⟨"ng://lib".data, GNodeKind.entryPointKind, EPState.inProgress,
   "epdata".data, "/dist".data, none⟩

/-- A concrete tsconfig initializer used by witnesses. -/
def initW : JStr → JStr → JStr → JStr := fun a b c => a ++ b ++ c

/-! ## Theorems for the standalone components -/

/-- C4: the source-versioning pass stamps a content-hash version only on files
that carry no version; running it twice over the same files assigns the same
versions both times (idempotence), and a file that already carries a version
is never overwritten. -/
theorem augmentProgramWithVersioning_idempotent (hash : JStr → JStr) (files : List VFile) :
    augmentProgramWithVersioning hash (augmentProgramWithVersioning hash files)
      = augmentProgramWithVersioning hash files ∧
    (∀ f ∈ files, ∀ v, f.version = some v → augmentVersion hash f = f) := by
  constructor
  · unfold augmentProgramWithVersioning
    rw [List.map_map]
    apply List.map_congr_left
    intro f _
    simp only [Function.comp_apply, augmentVersion]
    by_cases h : f.version = none
    · simp [h]
    · simp [h]
  · intro f _ v hv
    unfold augmentVersion
    simp [hv]

/-- Witness for C4 at a concrete file list: one unversioned and one versioned
file, with a concrete digest function. -/
theorem augmentProgramWithVersioning_idempotent_witness :
    (augmentProgramWithVersioning (fun t => t) [⟨"a".data, none⟩, ⟨"b".data, some ("v".data)⟩]
        = [⟨"a".data, some ("a".data)⟩, ⟨"b".data, some ("v".data)⟩]) ∧
    augmentVersion (fun t => t) ⟨"b".data, some ("v".data)⟩ = ⟨"b".data, some ("v".data)⟩ := by
  refine ⟨by decide, ?_⟩
  exact (augmentProgramWithVersioning_idempotent (fun t => t)
    [⟨"a".data, none⟩, ⟨"b".data, some ("v".data)⟩]).2
    ⟨"b".data, some ("v".data)⟩ (by decide) ("v".data) (by decide)

/-- getNodeS returns the file URI of its argument. -/
theorem getNodeS_fst (s : HostState) (p : JStr) :
    (getNodeS s p).1 = fileUrl (ensureUnixPath p) := rfl

/-- getNodeS puts the returned node URI into the graph. -/
theorem getNodeS_mem (s : HostState) (p : JStr) :
    (getNodeS s p).1 ∈ (getNodeS s p).2.nodes := by
  unfold getNodeS
  dsimp only
  split
  · assumption
  · simp

/-- getNodeS never removes a node from the graph. -/
theorem getNodeS_nodes_sup (s : HostState) (p x : JStr) (h : x ∈ s.nodes) :
    x ∈ (getNodeS s p).2.nodes := by
  unfold getNodeS
  dsimp only
  split
  · exact h
  · simp [h]

/-- getNodeS does not touch the dependency edges. -/
theorem getNodeS_edges (s : HostState) (p : JStr) :
    (getNodeS s p).2.edges = s.edges := by
  unfold getNodeS
  dsimp only
  split <;> rfl

/-- dependsOn records its edge. -/
theorem dependsOn_mem (s : HostState) (a b : JStr) :
    (a, b) ∈ (dependsOn s a b).edges := by
  unfold dependsOn
  split
  · assumption
  · simp

/-- dependsOn does not touch the node set. -/
theorem dependsOn_nodes (s : HostState) (a b : JStr) :
    (dependsOn s a b).nodes = s.nodes := by
  unfold dependsOn
  split <;> rfl

/-- addDependee changes only the graph: caches, counters and emitted outputs
are untouched. -/
theorem addDependee_frame (cfg : HostConfig) (s : HostState) (p : JStr) :
    (addDependee cfg s p).sfc = s.sfc ∧
    (addDependee cfg s p).outputCache = s.outputCache ∧
    (addDependee cfg s p).existsCalls = s.existsCalls ∧
    (addDependee cfg s p).parseCalls = s.parseCalls ∧
    (addDependee cfg s p).readCalls = s.readCalls ∧
    (addDependee cfg s p).extractCalls = s.extractCalls ∧
    (addDependee cfg s p).emitted = s.emitted := by
  unfold addDependee getNodeS dependsOn
  dsimp only
  split <;> split <;> exact ⟨rfl, rfl, rfl, rfl, rfl, rfl, rfl⟩

/-- addDependee registers the node for the file and the dependency edge from
the owning entry point. -/
theorem addDependee_mem (cfg : HostConfig) (s : HostState) (p : JStr) :
    fileUrl (ensureUnixPath p) ∈ (addDependee cfg s p).nodes ∧
    (cfg.epUri, fileUrl (ensureUnixPath p)) ∈ (addDependee cfg s p).edges := by
  unfold addDependee
  dsimp only
  constructor
  · rw [dependsOn_nodes]
    exact getNodeS_mem s p
  · exact dependsOn_mem _ _ _

/-- The graph part of the state after hostGetSourceFile is exactly the graph
after its addDependee step. -/
theorem hostGetSourceFile_graph (env : HostEnv) (cfg : HostConfig) (s : HostState)
    (p : JStr) (lv : Nat) :
    ((hostGetSourceFile env cfg s p lv).2).nodes = (addDependee cfg s p).nodes ∧
    ((hostGetSourceFile env cfg s p lv).2).edges = (addDependee cfg s p).edges := by
  unfold hostGetSourceFile
  dsimp only
  cases h : ((addDependee cfg s p).sfc p).sourceFile <;> simp [h]

/-- The graph part of the state after hostReadFile is exactly the graph after
its addDependee step. -/
theorem hostReadFile_graph (env : HostEnv) (cfg : HostConfig) (s : HostState)
    (p : JStr) :
    ((hostReadFile env cfg s p).2).nodes = (addDependee cfg s p).nodes ∧
    ((hostReadFile env cfg s p).2).edges = (addDependee cfg s p).edges := by
  unfold hostReadFile
  dsimp only
  cases h : ((addDependee cfg s p).sfc p).content <;> simp [h]

/-- The graph part of the state after hostReadResource is exactly the graph
after its addDependee step. -/
theorem hostReadResource_graph (env : HostEnv) (cfg : HostConfig) (s : HostState)
    (p : JStr) :
    ((hostReadResource env cfg s p).2).nodes = (addDependee cfg s p).nodes ∧
    ((hostReadResource env cfg s p).2).edges = (addDependee cfg s p).edges := by
  unfold hostReadResource
  dsimp only
  cases h : ((addDependee cfg s p).sfc p).content
  · cases h2 : env.uFileExists p
    · simp [h, h2]
    · cases h3 : isTemplateLike p <;> simp [h, h2, h3]
  · simp [h]

/-- C6: once a per-path cache field is populated, the wrapped operation
returns the cached value and does not invoke the underlying host operation:
a populated existence flag makes fileExists return it with the state
untouched; a populated parse handle makes getSourceFile return it with the
file caches and the parse counter untouched; populated content makes readFile
return it with the file caches and the read counter untouched. -/
theorem host_cache_fields_stable (env : HostEnv) (cfg : HostConfig) (s : HostState)
    (p : JStr) (lv : Nat) :
    (∀ b, (s.sfc p).exist = some b → hostFileExists env s p = (b, s)) ∧
    (∀ sf, (s.sfc p).sourceFile = some sf →
      (hostGetSourceFile env cfg s p lv).1 = some sf ∧
      ((hostGetSourceFile env cfg s p lv).2).sfc = s.sfc ∧
      ((hostGetSourceFile env cfg s p lv).2).parseCalls = s.parseCalls) ∧
    (∀ c, (s.sfc p).content = some c →
      (hostReadFile env cfg s p).1 = some c ∧
      ((hostReadFile env cfg s p).2).sfc = s.sfc ∧
      ((hostReadFile env cfg s p).2).readCalls = s.readCalls) := by
  obtain ⟨hsfc, -, -, hparse, hread, -, -⟩ := addDependee_frame cfg s p
  refine ⟨?_, ?_, ?_⟩
  · intro b hb
    unfold hostFileExists
    rw [hb]
  · intro sf hsf
    unfold hostGetSourceFile
    dsimp only
    rw [hsfc, hsf]
    exact ⟨rfl, hsfc, hparse⟩
  · intro c hc
    unfold hostReadFile
    dsimp only
    rw [hsfc, hc]
    exact ⟨rfl, hsfc, hread⟩

/-- Witness for C6 at a concrete state whose entry for the path carries a
populated existence flag, parse handle and content. -/
theorem host_cache_fields_stable_witness :
    ((stW.sfc ("/src/a.ts".data)).exist = some true →
      hostFileExists envW stW ("/src/a.ts".data) = (true, stW)) ∧
    ((stW.sfc ("/src/a.ts".data)).sourceFile = some ("sf".data) →
      (hostGetSourceFile envW cfgW stW ("/src/a.ts".data) 7).1 = some ("sf".data) ∧
      ((hostGetSourceFile envW cfgW stW ("/src/a.ts".data) 7).2).sfc = stW.sfc ∧
      ((hostGetSourceFile envW cfgW stW ("/src/a.ts".data) 7).2).parseCalls = stW.parseCalls) ∧
    ((stW.sfc ("/src/a.ts".data)).content = some ("ct".data) →
      (hostReadFile envW cfgW stW ("/src/a.ts".data)).1 = some ("ct".data) ∧
      ((hostReadFile envW cfgW stW ("/src/a.ts".data)).2).sfc = stW.sfc ∧
      ((hostReadFile envW cfgW stW ("/src/a.ts".data)).2).readCalls = stW.readCalls) :=
  ⟨fun h => (host_cache_fields_stable envW cfgW stW ("/src/a.ts".data) 7).1 true h,
   fun h => (host_cache_fields_stable envW cfgW stW ("/src/a.ts".data) 7).2.1 ("sf".data) h,
   fun h => (host_cache_fields_stable envW cfgW stW ("/src/a.ts".data) 7).2.2 ("ct".data) h⟩

/-- C8: reading a resource whose file does not exist, with no content cached
for its path, fails with an error message naming the offending path and
leaves the content cache entry for that path unpopulated. -/
theorem hostReadResource_missing_file (env : HostEnv) (cfg : HostConfig)
    (s : HostState) (p : JStr)
    (h1 : env.uFileExists p = false) (h2 : (s.sfc p).content = none) :
    (hostReadResource env cfg s p).1
      = Except.error (("Cannot read file ".data) ++ p ++ (".".data)) ∧
    (((hostReadResource env cfg s p).2).sfc p).content = none := by
  obtain ⟨hsfc, -⟩ := addDependee_frame cfg s p
  unfold hostReadResource
  dsimp only
  rw [hsfc, h2, h1]
  exact ⟨rfl, h2⟩

/-- Witness for C8: in the empty state with a host whose underlying
fileExists is constantly false, reading a missing stylesheet fails with the
path in the message and caches nothing. -/
theorem hostReadResource_missing_file_witness :
    envM.uFileExists ("/src/a.css".data) = false ∧
    (stEmpty.sfc ("/src/a.css".data)).content = none ∧
    (hostReadResource envM cfgW stEmpty ("/src/a.css".data)).1
      = Except.error (("Cannot read file ".data) ++ ("/src/a.css".data) ++ (".".data)) ∧
    (((hostReadResource envM cfgW stEmpty ("/src/a.css".data)).2).sfc ("/src/a.css".data)).content
      = none :=
  ⟨rfl, rfl,
   (hostReadResource_missing_file envM cfgW stEmpty ("/src/a.css".data) rfl rfl).1,
   (hostReadResource_missing_file envM cfgW stEmpty ("/src/a.css".data) rfl rfl).2⟩

/-- C3 (amended): the source-file parse, file read and resource read
operations create-or-fetch the node for the touched path and add a dependency
edge from the owning entry point; resource-path resolution records the edge
from the containing file to the resource; but the existence check and
module-name resolution add no graph structure at all. -/
theorem host_graph_registration (env : HostEnv) (cfg : HostConfig) (s : HostState)
    (p rn cf : JStr) (lv : Nat) (mods : List JStr) :
    (fileUrl (ensureUnixPath p) ∈ ((hostGetSourceFile env cfg s p lv).2).nodes ∧
      (cfg.epUri, fileUrl (ensureUnixPath p)) ∈ ((hostGetSourceFile env cfg s p lv).2).edges) ∧
    (fileUrl (ensureUnixPath p) ∈ ((hostReadFile env cfg s p).2).nodes ∧
      (cfg.epUri, fileUrl (ensureUnixPath p)) ∈ ((hostReadFile env cfg s p).2).edges) ∧
    (fileUrl (ensureUnixPath p) ∈ ((hostReadResource env cfg s p).2).nodes ∧
      (cfg.epUri, fileUrl (ensureUnixPath p)) ∈ ((hostReadResource env cfg s p).2).edges) ∧
    ((fileUrl (ensureUnixPath cf),
        fileUrl (ensureUnixPath (pathResolve (jsDirname cf) rn)))
      ∈ ((hostResourceNameToFileName s rn cf).2).edges) ∧
    ((hostFileExists env s p).2.nodes = s.nodes ∧
      (hostFileExists env s p).2.edges = s.edges) ∧
    (hostResolveModuleNames env s mods cf).2 = s := by
  obtain ⟨hm1, hm2⟩ := addDependee_mem cfg s p
  refine ⟨⟨?_, ?_⟩, ⟨?_, ?_⟩, ⟨?_, ?_⟩, ?_, ⟨?_, ?_⟩, rfl⟩
  · rw [(hostGetSourceFile_graph env cfg s p lv).1]; exact hm1
  · rw [(hostGetSourceFile_graph env cfg s p lv).2]; exact hm2
  · rw [(hostReadFile_graph env cfg s p).1]; exact hm1
  · rw [(hostReadFile_graph env cfg s p).2]; exact hm2
  · rw [(hostReadResource_graph env cfg s p).1]; exact hm1
  · rw [(hostReadResource_graph env cfg s p).2]; exact hm2
  · unfold hostResourceNameToFileName
    dsimp only
    rw [getNodeS_fst, getNodeS_fst]
    exact dependsOn_mem _ _ _
  · unfold hostFileExists
    cases h : (s.sfc p).exist <;> simp [h]
  · unfold hostFileExists
    cases h : (s.sfc p).exist <;> simp [h]

/-- Counterexample for C3 as stated: on the empty state, the existence check
registers no node and no edge, and module-name resolution leaves the whole
state (and hence the graph) untouched. -/
theorem host_graph_registration_cex :
    ((hostFileExists envW stEmpty ("/src/a.ts".data)).2).nodes = [] ∧
    ((hostFileExists envW stEmpty ("/src/a.ts".data)).2).edges = [] ∧
    (hostResolveModuleNames envW stEmpty [("mod".data)] ("/src/a.ts".data)).2 = stEmpty :=
  ⟨rfl, rfl, rfl⟩

/-- Folding the declaration-path recording step over covered sources never
changes an already recorded declaration path. -/
theorem foldRecordDecl_preserve (fn : JStr) (srcs : List JStr) :
    ∀ (st : HostState) (p dfn : JStr), (st.sfc p).declarationFileName = some dfn →
      ((srcs.foldl (recordDecl fn) st).sfc p).declarationFileName = some dfn := by
  induction srcs with
  | nil => intro st p dfn h; exact h
  | cons src rest ih =>
    intro st p dfn h
    rw [List.foldl_cons]
    apply ih
    unfold recordDecl
    split
    · rename_i hnone
      by_cases hps : p = src
      · rw [hps] at h; rw [h] at hnone; cases hnone
      · dsimp only
        rw [show (updateEntry st.sfc src
            { st.sfc src with declarationFileName := some (ensureUnixPath fn) }) p
            = st.sfc p from if_neg hps]
        exact h
    · exact h

/-- Folding the declaration-path recording step over covered sources leaves
every covered source with a recorded declaration path. -/
theorem foldRecordDecl_covered (fn : JStr) (srcs : List JStr) :
    ∀ (st : HostState) (p : JStr), p ∈ srcs →
      ((srcs.foldl (recordDecl fn) st).sfc p).declarationFileName ≠ none := by
  induction srcs with
  | nil => intro st p h; cases h
  | cons src rest ih =>
    intro st p h
    rw [List.foldl_cons]
    rcases List.mem_cons.mp h with hps | hmem
    · subst hps
      cases hd : ((recordDecl fn st p).sfc p).declarationFileName with
      | some dfn =>
        rw [foldRecordDecl_preserve fn rest (recordDecl fn st p) p dfn hd]
        exact Option.some_ne_none dfn
      | none =>
        exfalso
        revert hd
        unfold recordDecl
        split
        · dsimp only
          rw [show (updateEntry st.sfc p
              { st.sfc p with declarationFileName := some (ensureUnixPath fn) }) p
              = { st.sfc p with declarationFileName := some (ensureUnixPath fn) } from if_pos rfl]
          intro hd
          cases hd
        · rename_i hsome
          intro hd
          exact hsome hd
    · exact ih _ p hmem

/-- The sourcesFileCache after any hostWriteFile call, projected to the
declarationFileName field of an already recorded path: a case analysis
helper showing the field survives every branch. -/
theorem hostWriteFile_decl_preserve (env : HostEnv) (cfg : HostConfig)
    (s : HostState) (f d : JStr) (srcs : List JStr) (p dfn : JStr)
    (h : (s.sfc p).declarationFileName = some dfn) :
    (((hostWriteFile env cfg s f d srcs)).sfc p).declarationFileName = some dfn := by
  unfold hostWriteFile
  split
  · split
    · split
      · exact h
      · dsimp only
        exact foldRecordDecl_preserve _ srcs s p dfn h
    · dsimp only
      exact foldRecordDecl_preserve _ srcs s p dfn h
  · dsimp only
    split
    · split
      · split <;> exact h
      · exact h
    · exact h

/-- C10: writeFile records a source's declaration output path only on the
first declaration emission covering it: an already recorded path survives
every later writeFile call unchanged, and a non-suppressed declaration
emission covering a source with no recorded path leaves it recorded. -/
theorem hostWriteFile_decl_write_once (env : HostEnv) (cfg : HostConfig) :
    (∀ (s : HostState) (f d : JStr) (srcs : List JStr) (p dfn : JStr),
      (s.sfc p).declarationFileName = some dfn →
      ((hostWriteFile env cfg s f d srcs).sfc p).declarationFileName = some dfn) ∧
    (∀ (s : HostState) (f d : JStr) (srcs : List JStr) (p : JStr),
      endsWithS f (".d.ts".data) = true →
      ¬(f = flatModuleFileDtsPath cfg ∧ hasIndexEntryFile cfg = true) →
      p ∈ srcs →
      ((hostWriteFile env cfg s f d srcs).sfc p).declarationFileName ≠ none) := by
  constructor
  · intro s f d srcs p dfn h
    exact hostWriteFile_decl_preserve env cfg s f d srcs p dfn h
  · intro s f d srcs p hf hns hmem
    unfold hostWriteFile
    split
    · split
      · rename_i hfp
        split
        · rename_i hidx
          exact absurd ⟨hfp, hidx⟩ hns
        · dsimp only
          exact foldRecordDecl_covered _ srcs s p hmem
      · dsimp only
        exact foldRecordDecl_covered _ srcs s p hmem
    · rename_i hdts
      exact absurd hf hdts

/-- Witness for C10: a state whose entry for one source already records a
declaration path keeps it across a later declaration emission covering the
same source, and a fresh source covered by a declaration emission gets a
recorded path. -/
theorem hostWriteFile_decl_write_once_witness :
    (stD.sfc ("/src/a.ts".data)).declarationFileName = some ("/dist/a.d.ts".data) ∧
    ((hostWriteFile envW cfgW stD ("/dist/b.d.ts".data) ("dd".data)
        [("/src/a.ts".data)]).sfc ("/src/a.ts".data)).declarationFileName
      = some ("/dist/a.d.ts".data) ∧
    ((hostWriteFile envW cfgW stEmpty ("/dist/b.d.ts".data) ("dd".data)
        [("/src/b.ts".data)]).sfc ("/src/b.ts".data)).declarationFileName ≠ none :=
  ⟨rfl,
   (hostWriteFile_decl_write_once envW cfgW).1 stD ("/dist/b.d.ts".data) ("dd".data)
     [("/src/a.ts".data)] ("/src/a.ts".data) ("/dist/a.d.ts".data) rfl,
   (hostWriteFile_decl_write_once envW cfgW).2 stEmpty ("/dist/b.d.ts".data) ("dd".data)
     [("/src/b.ts".data)] ("/src/b.ts".data) (by decide)
     (by intro hc; exact absurd (congrArg id hc.1) (by decide)) (by decide)⟩

/-- Any non-declaration write stores an output entry at the rewritten path
whose version is the content hash of the data just written (with no map
stored for a non-mjs path). -/
theorem hostWriteFile_nondecl_entry (env : HostEnv) (cfg : HostConfig)
    (s : HostState) (f d : JStr) (srcs : List JStr)
    (h : endsWithS f (".d.ts".data) = false) :
    ∃ m, (hostWriteFile env cfg s f d srcs).outputCache (rewriteJsToMjs f)
        = some ⟨d, env.hash d, m⟩ ∧
      (endsWithS (rewriteJsToMjs f) (".mjs".data) = false → m = none) := by
  unfold hostWriteFile
  split
  · rename_i hdts
    rw [h] at hdts
    exact absurd hdts Bool.false_ne_true
  · dsimp only
    split
    · rename_i hmjs
      split
      · rename_i cd heq
        split
        · exact ⟨cd.map, by simp [updateOutput], fun hc => absurd hmjs (by simp [hc])⟩
        · exact ⟨some (env.extractMap d), by simp [updateOutput],
            fun hc => absurd hmjs (by simp [hc])⟩
      · exact ⟨some (env.extractMap d), by simp [updateOutput],
          fun hc => absurd hmjs (by simp [hc])⟩
    · exact ⟨none, by simp [updateOutput], fun _ => rfl⟩

/-- Re-writing identical data over an output entry that already records its
hash neither extracts a map nor changes the entry. -/
theorem hostWriteFile_rewrite_stable (env : HostEnv) (cfg : HostConfig)
    (t : HostState) (f d : JStr) (srcs : List JStr) (m : Option JStr)
    (h : endsWithS f (".d.ts".data) = false)
    (hm : t.outputCache (rewriteJsToMjs f) = some ⟨d, env.hash d, m⟩)
    (hnm : endsWithS (rewriteJsToMjs f) (".mjs".data) = false → m = none) :
    (hostWriteFile env cfg t f d srcs).extractCalls = t.extractCalls ∧
    (hostWriteFile env cfg t f d srcs).outputCache (rewriteJsToMjs f)
      = t.outputCache (rewriteJsToMjs f) := by
  unfold hostWriteFile
  split
  · rename_i hdts
    rw [h] at hdts
    exact absurd hdts Bool.false_ne_true
  · dsimp only
    split
    · split
      · rename_i cd heq
        rw [hm] at heq
        injection heq with heq2
        subst heq2
        split
        · exact ⟨rfl, by simp [updateOutput, hm]⟩
        · rename_i hv
          exact absurd rfl hv
      · rename_i heq
        rw [hm] at heq
        cases heq
    · rename_i hmjs
      have hmn : m = none := hnm (by
        cases hb : endsWithS (rewriteJsToMjs f) (".mjs".data)
        · rfl
        · exact absurd hb hmjs)
      subst hmn
      exact ⟨rfl, by simp [updateOutput, hm]⟩

/-- The extraction counter after a non-declaration write, characterized by
the cached entry for the rewritten path. -/
theorem hostWriteFile_extractCalls (env : HostEnv) (cfg : HostConfig)
    (s : HostState) (f d : JStr) (srcs : List JStr)
    (h : endsWithS f (".d.ts".data) = false) :
    (hostWriteFile env cfg s f d srcs).extractCalls =
      if endsWithS (rewriteJsToMjs f) (".mjs".data) = true then
        match s.outputCache (rewriteJsToMjs f) with
        | some cd => if cd.version = env.hash d then s.extractCalls else s.extractCalls + 1
        | none => s.extractCalls + 1
      else s.extractCalls := by
  unfold hostWriteFile
  split
  · rename_i hdts
    rw [h] at hdts
    exact absurd hdts Bool.false_ne_true
  · dsimp only
    split
    · split
      · split <;> rfl
      · rfl
    · rfl

/-- C2: for a non-declaration output path, a second writeFile with
byte-identical data does not invoke source-map extraction and leaves the
cached entry (hence its map) unchanged; when the cached entry for the path
already carries the hash of the data, an mjs write reuses its map without
extraction; and extraction happens only when no entry is cached for the path
or its version differs from the content hash. -/
theorem hostWriteFile_hash_gating (env : HostEnv) (cfg : HostConfig)
    (s : HostState) (f d : JStr) (srcs : List JStr)
    (h : endsWithS f (".d.ts".data) = false) :
    ((hostWriteFile env cfg (hostWriteFile env cfg s f d srcs) f d srcs).extractCalls
        = (hostWriteFile env cfg s f d srcs).extractCalls ∧
      (hostWriteFile env cfg (hostWriteFile env cfg s f d srcs) f d srcs).outputCache
          (rewriteJsToMjs f)
        = (hostWriteFile env cfg s f d srcs).outputCache (rewriteJsToMjs f)) ∧
    (endsWithS (rewriteJsToMjs f) (".mjs".data) = true →
      ∀ cd, s.outputCache (rewriteJsToMjs f) = some cd → cd.version = env.hash d →
        (hostWriteFile env cfg s f d srcs).extractCalls = s.extractCalls ∧
        (hostWriteFile env cfg s f d srcs).outputCache (rewriteJsToMjs f)
          = some ⟨d, env.hash d, cd.map⟩) ∧
    ((hostWriteFile env cfg s f d srcs).extractCalls ≠ s.extractCalls →
      s.outputCache (rewriteJsToMjs f) = none ∨
      ∃ cd, s.outputCache (rewriteJsToMjs f) = some cd ∧ cd.version ≠ env.hash d) := by
  obtain ⟨m, hm, hnm⟩ := hostWriteFile_nondecl_entry env cfg s f d srcs h
  refine ⟨?_, ?_, ?_⟩
  · exact hostWriteFile_rewrite_stable env cfg (hostWriteFile env cfg s f d srcs)
      f d srcs m h hm hnm
  · intro hmjs cd hcd hcv
    unfold hostWriteFile
    split
    · rename_i hdts
      rw [h] at hdts
      exact absurd hdts Bool.false_ne_true
    · dsimp only
      split
      · split
        · rename_i cd2 heq
          rw [hcd] at heq
          injection heq with heq2
          subst heq2
          split
          · exact ⟨rfl, by simp [updateOutput]⟩
          · rename_i hv
            exact absurd hcv hv
        · rename_i heq
          rw [hcd] at heq
          cases heq
      · rename_i hm2
        exact absurd hmjs hm2
  · intro hne
    rw [hostWriteFile_extractCalls env cfg s f d srcs h] at hne
    by_cases hmjs : endsWithS (rewriteJsToMjs f) (".mjs".data) = true
    · rw [if_pos hmjs] at hne
      cases hcd : s.outputCache (rewriteJsToMjs f) with
      | none => exact Or.inl rfl
      | some cd =>
        simp only [hcd] at hne
        by_cases hcv : cd.version = env.hash d
        · rw [if_pos hcv] at hne
          exact absurd rfl hne
        · exact Or.inr ⟨cd, rfl, hcv⟩
    · rw [if_neg hmjs] at hne
      exact absurd rfl hne

/-- Witness for C2: writing one concrete js output twice leaves the
extraction counter of the second write at the value after the first. -/
theorem hostWriteFile_hash_gating_witness :
    endsWithS ("/fesm/a.js".data) (".d.ts".data) = false ∧
    (hostWriteFile envW cfgW stEmpty ("/fesm/a.js".data) ("dat".data) []).extractCalls = 1 ∧
    (hostWriteFile envW cfgW
        (hostWriteFile envW cfgW stEmpty ("/fesm/a.js".data) ("dat".data) [])
        ("/fesm/a.js".data) ("dat".data) []).extractCalls
      = (hostWriteFile envW cfgW stEmpty ("/fesm/a.js".data) ("dat".data) []).extractCalls :=
  ⟨by decide, by decide,
   (hostWriteFile_hash_gating envW cfgW stEmpty ("/fesm/a.js".data) ("dat".data) []
     (by decide)).1.1⟩

/-- A list ends with any of its suffixes that it was built from. -/
theorem endsWithS_append (x suf : JStr) : endsWithS (x ++ suf) suf = true := by
  unfold endsWithS
  rw [List.isSuffixOf_iff_suffix]
  exact List.suffix_append x suf

/-- The flattened declaration path splits into the unix destination path, a
separator, and the unix form of the flattened declaration file name. -/
theorem flatPath_decomp (cfg : HostConfig) :
    flatModuleFileDtsPath cfg
      = ensureUnixPath cfg.destinationPath
        ++ '/' :: ensureUnixPath (flatModuleFileDtsFilename cfg) := by
  simp [flatModuleFileDtsPath, ensureUnixPath, List.map_append]

/-- Folding the declaration-path recording step changes no emitted output. -/
theorem foldRecordDecl_emitted (fn : JStr) (srcs : List JStr) :
    ∀ (st : HostState), (srcs.foldl (recordDecl fn) st).emitted = st.emitted := by
  induction srcs with
  | nil => intro st; rfl
  | cons src rest ih =>
    intro st
    rw [List.foldl_cons, ih]
    unfold recordDecl
    split <;> rfl

/-- The JavaScript first-occurrence replace, applied to a string of the form
u followed by the pattern with no occurrence of the pattern starting inside
u, replaces exactly the final pattern. -/
theorem replFirst_no_early (pat r : JStr) :
    ∀ (u : JStr), (∀ i, i < u.length → ¬ pat <+: ((u ++ pat).drop i)) →
      replFirst pat r (u ++ pat) = u ++ r := by
  intro u
  induction u with
  | nil =>
    intro _
    rw [List.nil_append, List.nil_append]
    cases pat with
    | nil => rfl
    | cons c cs =>
      simp only [replFirst]
      rw [if_pos ( List.isPrefixOf_iff_prefix.mpr (List.prefix_refl _))]
      simp [List.drop_length]
  | cons c u2 ih =>
    intro h
    have h0 : ¬ pat <+: ((c :: u2) ++ pat) := by
      have h0a := h 0 (by simp)
      simpa using h0a
    have hb : pat.isPrefixOf ((c :: u2) ++ pat) = false := by
      cases hx : pat.isPrefixOf ((c :: u2) ++ pat)
      · rfl
      · exact absurd ( List.isPrefixOf_iff_prefix.mp hx) h0
    rw [List.cons_append] at hb ⊢
    simp only [replFirst]
    rw [if_neg (by simp [hb])]
    rw [ih (fun i hi => by
      have hnext := h (i + 1) (by simpa using Nat.succ_lt_succ hi)
      rw [List.cons_append, List.drop_succ_cons] at hnext
      exact hnext)]
    rw [List.cons_append]

/-- C1 (amended): when the entry file is named index, the write of the
flattened declaration is suppressed entirely (the state is unchanged and
nothing is forwarded); otherwise the first occurrence of the flattened
declaration file name in the path is replaced by index.d.ts before emission,
which is the canonical index declaration path whenever the pattern does not
already occur earlier in the path (in particular whenever the destination
directory does not contain it). -/
theorem hostWriteFile_flat_dts (env : HostEnv) (cfg : HostConfig) (s : HostState)
    (d : JStr) (srcs : List JStr) :
    (hasIndexEntryFile cfg = true →
      hostWriteFile env cfg s (flatModuleFileDtsPath cfg) d srcs = s) ∧
    (hasIndexEntryFile cfg = false →
      ensureUnixPath (flatModuleFileDtsFilename cfg) = flatModuleFileDtsFilename cfg →
      (∀ i, i < (ensureUnixPath cfg.destinationPath).length + 1 →
        ¬ flatModuleFileDtsFilename cfg <+: ((flatModuleFileDtsPath cfg).drop i)) →
      (hostWriteFile env cfg s (flatModuleFileDtsPath cfg) d srcs).emitted
        = s.emitted
          ++ [(ensureUnixPath cfg.destinationPath ++ '/' :: ("index.d.ts".data), d)]) := by
  have hdecomp := flatPath_decomp cfg
  have hdts : endsWithS (flatModuleFileDtsPath cfg) (".d.ts".data) = true := by
    rw [hdecomp]
    have hsplit : ensureUnixPath cfg.destinationPath
        ++ '/' :: ensureUnixPath (flatModuleFileDtsFilename cfg)
        = (ensureUnixPath cfg.destinationPath
            ++ '/' :: ensureUnixPath cfg.flatModuleFile) ++ (".d.ts".data) := by
      have : ensureUnixPath (flatModuleFileDtsFilename cfg)
          = ensureUnixPath cfg.flatModuleFile ++ (".d.ts".data) := by
        simp [flatModuleFileDtsFilename, ensureUnixPath, List.map_append]
      rw [this]
      simp
    rw [hsplit]
    exact endsWithS_append _ _
  constructor
  · intro hidx
    unfold hostWriteFile
    rw [if_pos hdts, if_pos rfl, if_pos hidx]
  · intro hidx h3 h4
    have hP : flatModuleFileDtsPath cfg
        = (ensureUnixPath cfg.destinationPath ++ ['/']) ++ flatModuleFileDtsFilename cfg := by
      rw [hdecomp, h3]
      simp
    have hrepl : replFirst (flatModuleFileDtsFilename cfg) ("index.d.ts".data)
        (flatModuleFileDtsPath cfg)
        = (ensureUnixPath cfg.destinationPath ++ ['/']) ++ ("index.d.ts".data) := by
      rw [hP]
      apply replFirst_no_early
      intro i hi
      have hlen : i < (ensureUnixPath cfg.destinationPath).length + 1 := by
        simpa using hi
      have := h4 i hlen
      rw [hP] at this
      exact this
    unfold hostWriteFile
    rw [if_pos hdts, if_pos rfl, if_neg (by simp [hidx])]
    dsimp only
    rw [foldRecordDecl_emitted, hrepl]
    simp

/-- Counterexample for C1 as stated: with a destination directory that itself
contains the flattened declaration file name as a path component, the rename
replaces the first occurrence inside the directory part, so the emitted file
is neither at the canonical index declaration path nor renamed away from the
flat-module declaration file name. -/
theorem hostWriteFile_flat_dts_cex :
    hasIndexEntryFile cfgC = false ∧
    flatModuleFileDtsPath cfgC = ("/x/a.d.ts/a.d.ts".data) ∧
    (hostWriteFile envW cfgC stEmpty ("/x/a.d.ts/a.d.ts".data) ("dd".data) []).emitted
      = [(("/x/index.d.ts/a.d.ts".data), ("dd".data))] ∧
    ("/x/index.d.ts/a.d.ts".data) ≠ ("/x/a.d.ts".data) ++ '/' :: ("index.d.ts".data) ∧
    jsBasename ("/x/index.d.ts/a.d.ts".data) = flatModuleFileDtsFilename cfgC := by
  refine ⟨by decide, by decide, by decide, by decide, by decide⟩

/-- Witness for C1 (amended): with an index-named entry file the flattened
declaration write leaves the state unchanged, and with a plain destination
directory the non-index entry file leads to an emission at the canonical
index declaration path. -/
theorem hostWriteFile_flat_dts_witness :
    hasIndexEntryFile cfgI = true ∧
    hostWriteFile envW cfgI stEmpty (flatModuleFileDtsPath cfgI) ("dd".data) [] = stEmpty ∧
    hasIndexEntryFile cfgW = false ∧
    (hostWriteFile envW cfgW stEmpty (flatModuleFileDtsPath cfgW) ("dd".data) []).emitted
      = [(ensureUnixPath cfgW.destinationPath ++ '/' :: ("index.d.ts".data), "dd".data)] :=
  ⟨by decide,
   (hostWriteFile_flat_dts envW cfgI stEmpty ("dd".data) []).1 (by decide),
   by decide,
   by
    rw [(hostWriteFile_flat_dts envW cfgW stEmpty ("dd".data) []).2 (by decide) (by decide)
      (by decide)]
    rfl⟩

/-- Decomposition of the first-match update: when the graph search finds an
entry point, the graph splits into a prefix of non-matching nodes, the found
node, and the rest, and the update rewrites only the found node. -/
theorem setTsConfigOnFirst_decomp (init : JStr → JStr → JStr → JStr)
    (defaultTsConfig : JStr) :
    ∀ (g : List GNode) (ep : GNode),
      g.find? isEntryPointInProgress = some ep →
      ∃ pre post, g = pre ++ ep :: post ∧
        (∀ n ∈ pre, isEntryPointInProgress n = false) ∧
        setTsConfigOnFirst init defaultTsConfig g
          = pre
            ++ { ep with tsConfig := some (init defaultTsConfig ep.entryPointData ep.outDir) }
            :: post := by
  intro g
  induction g with
  | nil => intro ep h; cases h
  | cons n rest ih =>
    intro ep h
    cases hp : isEntryPointInProgress n with
    | true =>
      rw [List.find?_cons_of_pos _ hp] at h
      injection h with h2
      subst h2
      refine ⟨[], rest, rfl, (by intro x hx; cases hx), ?_⟩
      simp only [setTsConfigOnFirst]
      rw [if_pos hp]
      simp
    | false =>
      rw [List.find?_cons_of_neg _ (by simp [hp])] at h
      obtain ⟨pre, post, hg, hpre, hres⟩ := ih ep h
      refine ⟨n :: pre, post, by rw [hg, List.cons_append], ?_, ?_⟩
      · intro x hx
        rcases List.mem_cons.mp hx with hx1 | hx2
        · rw [hx1]; exact hp
        · exact hpre x hx2
      · simp only [setTsConfigOnFirst]
        rw [if_neg (by simp [hp])]
        rw [hres, List.cons_append]

/-- C9: the tsconfig initialization transform decomposes the graph around the
first in-progress entry point found by the graph search predicate and returns
the same graph with only that node's tsConfig field assigned; every earlier
node does not satisfy the predicate and every node other than the found one
is returned untouched. -/
theorem initTsConfigTransform_frame (init : JStr → JStr → JStr → JStr)
    (defaultTsConfig : JStr) (g : List GNode) (ep : GNode)
    (h : buildGraphFind isEntryPointInProgress g = some ep) :
    ∃ pre post, g = pre ++ ep :: post ∧
      (∀ n ∈ pre, isEntryPointInProgress n = false) ∧
      initTsConfigTransform init defaultTsConfig g
        = some (pre
            ++ { ep with tsConfig := some (init defaultTsConfig ep.entryPointData ep.outDir) }
            :: post) := by
  obtain ⟨pre, post, hg, hpre, hset⟩ :=
    setTsConfigOnFirst_decomp init defaultTsConfig g ep h
  refine ⟨pre, post, hg, hpre, ?_⟩
  unfold initTsConfigTransform
  rw [h, hset]

/-- Witness for C9 at a concrete two-node graph: a file node followed by an
in-progress entry point; only the entry point's tsConfig changes. -/
theorem initTsConfigTransform_frame_witness :
    buildGraphFind isEntryPointInProgress [gFile, gEp] = some gEp ∧
    (∃ pre post, [gFile, gEp] = pre ++ gEp :: post ∧
      (∀ n ∈ pre, isEntryPointInProgress n = false) ∧
      initTsConfigTransform initW ("cfg".data) [gFile, gEp]
        = some (pre
            ++ { gEp with tsConfig := some (initW ("cfg".data) gEp.entryPointData gEp.outDir) }
            :: post)) :=
  ⟨by decide,
   initTsConfigTransform_frame initW ("cfg".data) [gFile, gEp] gEp (by decide)⟩

/-- C5: generateKey is a stable digest of the content, and reading a cache
entry after saving one under that key returns exactly the saved payload. -/
theorem cache_save_read_roundtrip (hash : JStr → JStr) (store : CacheStore)
    (dir content payload : JStr) :
    generateKey hash content = generateKey hash content ∧
    readCacheEntry (saveCacheEntry store dir (generateKey hash content) payload)
      dir (generateKey hash content) = some payload := by
  refine ⟨rfl, ?_⟩
  simp [readCacheEntry, saveCacheEntry]

/-- C7: with a falsy or absent cache directory, downlevelCodeWithTsc performs
no cache read and no cache write (the store is returned unchanged and both
operation counts are zero) and always returns the freshly transpiled code with
its parsed source map. -/
theorem downlevelCodeWithTsc_no_cache (env : DownlevelEnv) (store : CacheStore)
    (code filePath : JStr) (cacheDirectory : Option JStr)
    (h : jsTruthyStr cacheDirectory = false) :
    downlevelCodeWithTsc env store code filePath cacheDirectory
      = ({ code := (env.transpile code (jsDirname filePath)).1,
           map := env.jsonParse (env.transpile code (jsDirname filePath)).2 },
         store, 0, 0) := by
  simp [downlevelCodeWithTsc, h]

/-- Witness for C7: an absent cache directory on a concrete input produces the
fresh transpilation, an unchanged store, and zero cache operations. -/
theorem downlevelCodeWithTsc_no_cache_witness :
    jsTruthyStr (none : Option JStr) = false ∧
    downlevelCodeWithTsc
        ⟨fun t => t, fun c _ => (c, c), fun t => t, fun c _ => c, fun p => ⟨p, p⟩⟩
        ⟨fun _ _ => none⟩ ("x".data) ("/a/b.js".data) none
      = (⟨"x".data, "x".data⟩, ⟨fun _ _ => none⟩, 0, 0) :=
  ⟨rfl, downlevelCodeWithTsc_no_cache
    ⟨fun t => t, fun c _ => (c, c), fun t => t, fun c _ => c, fun p => ⟨p, p⟩⟩
    ⟨fun _ _ => none⟩ ("x".data) ("/a/b.js".data) none rfl⟩
